import Mathlib

/-!
Verification of the `wallet-connect-button-react` widget.

This file shallowly embeds the logic of `src/WalletConnectButton.tsx` and
`src/useSearchParams.ts`:

* the URL query-parameter store (`URLSearchParams.set` / `.delete` semantics),
* host resolution (`getDefaultHost`) and deep-link construction
  (`constructURI`, with a faithful model of `encodeURIComponent`),
* the `success`-event handler (`handleSuccess`),
* the disclosed-attributes effect (fetch + parameter cleanup + error state),
* the shadow-DOM injection retry loop (`injectCredentialsIntoShadowDOM`),
* a small-step event-loop model of `fetchRequestedCredentials` together with
  the module-level `credentialsCache` promise-deduplication map.

JavaScript string truthiness (`undefined`/`null`/"" are falsy) is modelled
explicitly where the source relies on it.
-/

namespace WCB

/-! ### JavaScript truthiness -/

/-- Truthiness of a JS string: falsy iff empty. -/
def strTruthy (s : String) : Bool := s != ""

/-- Truthiness of a JS `string | undefined | null` value. -/
def optTruthy : Option String → Bool
  | none => false
  | some s => strTruthy s

/-! ### Query-parameter store (`useSearchParams.ts`)

The browser URL's query string is modelled as an ordered list of key-value
pairs, the view `URLSearchParams` exposes. -/

/-- A query string as an ordered list of key-value pairs. -/
abbrev Params := List (String × String)

/-- Model of `URLSearchParams.get`: value of the first pair with the key,
`none` when the parameter is absent (JS returns `null`). -/
def paramsGet (p : Params) (k : String) : Option String :=
  match p.find? (fun e => e.1 == k) with
  | some e => some e.2
  | none => none

/-- Model of `url.searchParams.delete(k)` as used by `removeSearchParam`:
removes every pair with the key. -/
def removeParam (p : Params) (k : String) : Params :=
  p.filter (fun e => e.1 != k)

/-- Model of `url.searchParams.set(k, v)`: replaces the value of the first
pair with the key and drops the remaining pairs with that key; appends when
the key is absent. -/
def setParam : Params → String → String → Params
  | [], k, v => [(k, v)]
  | e :: rest, k, v =>
    if e.1 == k then (k, v) :: removeParam rest k
    else e :: setParam rest k v

/-- Model of `setSearchParams(params)`: applies `set` for every entry of the
record, in order. -/
def setSearchParams (p : Params) (updates : Params) : Params :=
  updates.foldl (fun acc kv => setParam acc kv.1 kv.2) p

/-! ### `encodeURIComponent`

Unreserved characters (`A-Z a-z 0-9 - _ . ! ~ * ' ( )`) pass through; every
other character is percent-encoded byte-wise from its UTF-8 encoding with
uppercase hex digits. -/

/-- Characters `encodeURIComponent` leaves unescaped. `Char.ofNat 39` is the
apostrophe. -/
def isUnreservedChar (c : Char) : Bool :=
  c.isAlpha || c.isDigit || c == '-' || c == '_' || c == '.' || c == '!' ||
  c == '~' || c == '*' || c == Char.ofNat 39 || c == '(' || c == ')'

/-- Uppercase hexadecimal digit for `n < 16`. -/
def hexDigit (n : Nat) : Char :=
  if n < 10 then Char.ofNat (48 + n) else Char.ofNat (55 + n)

/-- UTF-8 bytes of a character, as numbers. -/
def utf8Bytes (c : Char) : List Nat :=
  let n := c.toNat
  if n < 128 then [n]
  else if n < 2048 then [192 + n / 64, 128 + n % 64]
  else if n < 65536 then [224 + n / 4096, 128 + (n / 64) % 64, 128 + n % 64]
  else [240 + n / 262144, 128 + (n / 4096) % 64, 128 + (n / 64) % 64, 128 + n % 64]

/-- Percent-encoding of one byte. -/
def pctByte (b : Nat) : String :=
  "%" ++ String.singleton (hexDigit (b / 16)) ++ String.singleton (hexDigit (b % 16))

/-- Encoding of a single character. -/
def encChar (c : Char) : String :=
  if isUnreservedChar c then String.singleton c
  else String.join ((utf8Bytes c).map pctByte)

/-- Encoding of a character list. -/
def encodeChars : List Char → String
  | [] => ""
  | c :: cs => encChar c ++ encodeChars cs

/-- Model of JS `encodeURIComponent`. -/
def encodeURIComponent (s : String) : String := encodeChars s.data

/-! ### Host resolution (`getDefaultHost`) -/

/-- Direct translation of `getDefaultHost(useLocalWcServer, business, issuance)`. -/
def getDefaultHost (useLocalWcServer business issuance : Bool) : String :=
  if useLocalWcServer then
    if business then
      if issuance then "http://localhost:4007" else "http://bw.localhost:3021"
    else
      if issuance then "http://localhost:3007" else "http://localhost:3021"
  else
    if business then
      if issuance then "https://bw.issuance.wallet-connect.eu" else "https://bw.wallet-connect.eu"
    else
      if issuance then "https://issuance.wallet-connect.eu" else "https://wallet-connect.eu"

/-- The eight host literals appearing in `getDefaultHost`. -/
def hostLiterals : List String :=
  ["https://wallet-connect.eu", "https://issuance.wallet-connect.eu",
   "https://bw.wallet-connect.eu", "https://bw.issuance.wallet-connect.eu",
   "http://localhost:3021", "http://localhost:3007",
   "http://bw.localhost:3021", "http://localhost:4007"]

/-! ### Deep-link construction (`constructURI`) -/

/-- Deep-link scheme, business vs. consumer. -/
def deepLinkScheme (business : Bool) : String :=
  if business then "businesswalletdebuginteraction://wallet.kvk.rijksoverheid.nl"
  else "walletdebuginteraction://wallet.edi.rijksoverheid.nl"

/-- Direct translation of `constructURI(clientId, session_type, walletConnectHost, business)`. -/
def constructURI (clientId session_type walletConnectHost : String) (business : Bool) : String :=
  let request_uri :=
    walletConnectHost ++ "/disclosure/" ++ clientId ++ "/request_uri?session_type=" ++ session_type
  let request_uri_method := "post"
  let client_id_uri := clientId ++ ".example.com"
  deepLinkScheme business ++ "/disclosure_based_issuance?request_uri=" ++
    encodeURIComponent request_uri ++ "&request_uri_method=" ++ request_uri_method ++
    "&client_id=" ++ client_id_uri

/-- Everything of a deep link that precedes the `session_type` value: the
scheme, the fixed path, and the once-encoded head of the nested request URI. -/
def linkHead (clientId walletConnectHost : String) (business : Bool) : String :=
  deepLinkScheme business ++ "/disclosure_based_issuance?request_uri=" ++
    encodeURIComponent
      (walletConnectHost ++ "/disclosure/" ++ clientId ++ "/request_uri?session_type=")

/-- Everything of a deep link that follows the `session_type` value. -/
def linkTail (clientId : String) : String :=
  "&request_uri_method=post&client_id=" ++ clientId ++ ".example.com"

/-! ### `success`-event handler (`handleSuccess`) -/

/-- Model of `handleSuccess`: the event `detail` is the payload list
`[session_token, session_type, ...]`. The guard `detail && detail.length > 1`
corresponds to the two-element pattern; on `cross_device` the handler calls
`setSearchParams({ session_token })`. -/
def handleSuccess (detail : List String) (p : Params) : Params :=
  match detail with
  | session_token :: session_type :: _ =>
    if session_type == "cross_device" then setSearchParams p [("session_token", session_token)]
    else p
  | _ => p

/-! ### Disclosed-attributes effect

The `useEffect` reading `session_token` / `nonce`, issuing the GET and
cleaning the URL afterwards. The network outcome is a parameter
(`Except errorMessage payload`); the payload type is abstract because the
code passes `data` through to `onSuccess` untouched. -/

/-- Observable result of one execution of the disclosed-attributes effect. -/
structure EffectResult (π : Type) where
  params : Params
  callback : Option π
  errorMsg : Option String
  loading : Bool
  url : Option String
deriving Repr

/-- URL built for the disclosed-attributes GET. -/
def disclosedAttributesUrl (walletConnectHost : String) (apiKey : Option String)
    (clientId session_token : String) (nonce : Option String) : String :=
  let baseUrl := if optTruthy apiKey then walletConnectHost else ""
  let url := baseUrl ++ "/api/disclosed-attributes?session_token=" ++ session_token ++
    "&client_id=" ++ clientId
  if optTruthy nonce then url ++ "&nonce=" ++ nonce.getD "" else url

/-- Model of the disclosed-attributes `useEffect`: reads `session_token` and
`nonce` from the query parameters, returns early when the token is falsy,
and otherwise reports the callback / error and the cleaned-up parameters for
the given network outcome. -/
def disclosedAttributesEffect (π : Type) (walletConnectHost : String) (apiKey : Option String)
    (clientId : String) (p : Params) (outcome : Except String π) : EffectResult π :=
  let session_token := paramsGet p "session_token"
  let nonce := paramsGet p "nonce"
  if optTruthy session_token = false then
    { params := p, callback := none, errorMsg := none, loading := false, url := none }
  else
    let url := disclosedAttributesUrl walletConnectHost apiKey clientId
      (session_token.getD "") nonce
    match outcome with
    | .ok payload =>
      let p1 := removeParam p "session_token"
      let p2 := if optTruthy nonce then removeParam p1 "nonce" else p1
      { params := p2, callback := some payload, errorMsg := none, loading := false,
        url := some url }
    | .error msg =>
      let p1 := removeParam p "session_token"
      let p2 := if optTruthy nonce then removeParam p1 "nonce" else p1
      { params := p2, callback := none, errorMsg := some msg, loading := false,
        url := some url }

/-! ### Render states of the widget -/

/-- What the component renders. -/
inductive RenderState where
  | checking
  | errorCard (msg : String)
  | widget
deriving DecidableEq, Repr

/-- The early-return render logic: `loading` wins, then `error`, else the
wallet element. -/
def renderOf (loading : Bool) (err : Option String) : RenderState :=
  if loading then .checking
  else match err with
    | some m => .errorCard m
    | none => .widget

/-! ### Wallet-element attributes (the final JSX) -/

/-- The component's props, with the destructuring defaults already applied. -/
structure WalletConnectButtonProps where
  label : Option String
  clientId : String
  apiKey : Option String
  useLocalWcServer : Bool
  business : Bool
  lang : Option String
  helpBaseUrl : Option String
  issuance : Bool

/-- Attributes put on the `nl-wallet-button` element. -/
structure WalletButtonAttrs where
  text : Option String
  usecase : String
  startUrl : String
  langAttr : String
  sameDeviceUl : String
  crossDeviceUl : String
  helpBaseUrl : Option String

/-- The attribute values rendered onto the embedded wallet element, as a
function of the props and of `window.location.href`. -/
def renderWalletButton (props : WalletConnectButtonProps) (locationHref : String) :
    WalletButtonAttrs :=
  let walletConnectHost := getDefaultHost props.useLocalWcServer props.business props.issuance
  { text := props.label
    usecase := if props.issuance then "" else props.clientId
    startUrl := walletConnectHost ++ "/api/create-session?lang=en&return_url=" ++
      encodeURIComponent locationHref
    langAttr := match props.lang with
      | some l => if strTruthy l then l else "nl"
      | none => "nl"
    sameDeviceUl := constructURI props.clientId "same_device" walletConnectHost props.business
    crossDeviceUl := constructURI props.clientId "cross_device" walletConnectHost props.business
    helpBaseUrl := props.helpBaseUrl }

/-! ### Shadow-DOM injection retry (`injectCredentialsIntoShadowDOM`)

The DOM is abstracted as an oracle giving, per attempt number, whether the
wallet element (with its shadow root), the `.modal` node and the `.website`
node exist. The function returns the final outcome together with the list of
`setTimeout` delays it scheduled (one `200` per retry). -/

/-- DOM oracle: presence of the relevant nodes at each attempt. -/
structure DomEnv where
  hasButtonAt : Nat → Bool
  modalAt : Nat → Bool
  websiteAt : Nat → Bool

/-- Outcome of the injection attempt chain. -/
inductive InjectOutcome where
  | noButton
  | noCreds
  | insertedAfterWebsite
  | insertedAtTop
  | gaveUp
deriving DecidableEq, Repr

/-- The `maxRetries` constant of the source. -/
def maxRetries : Nat := 10

/-- Model of `injectCredentialsIntoShadowDOM(credentials, retryCount)`:
returns the outcome and the scheduled retry delays. The recursion mirrors the
`setTimeout(..., 200)` self-call guarded by `retryCount < maxRetries`. -/
def injectCredentialsIntoShadowDOM (env : DomEnv) (credentials : List String)
    (retryCount : Nat) : InjectOutcome × List Nat :=
  if env.hasButtonAt retryCount = false then (.noButton, [])
  else if credentials.length = 0 then (.noCreds, [])
  else if env.modalAt retryCount = false then
    if retryCount < maxRetries then
      let r := injectCredentialsIntoShadowDOM env credentials (retryCount + 1)
      (r.1, 200 :: r.2)
    else (.gaveUp, [])
  else if env.websiteAt retryCount then (.insertedAfterWebsite, [])
  else (.insertedAtTop, [])
termination_by maxRetries + 1 - retryCount
decreasing_by simp_wf; simp only [maxRetries] at *; omega

/-! ### The credentials cache and `fetchRequestedCredentials`

`credentialsCache` is a module-level `Map` from `` `${clientId}-${host}` ``
to an entry holding either resolved data or an in-flight promise. The
surrounding event loop is modelled as a small-step system: each call to
`fetchRequestedCredentials` is a task, and the three kinds of steps are the
synchronous prefix of a call (`firstStep`, which runs up to and including the
publication of the in-flight promise — there is no interleaving point inside
it in JS), the completion of a network request (`resolveStep`, which runs the
continuation inside the IIFE: store data on success, evict on failure), and
the resumption of an `await` on a settled promise (`awaitStep`). -/

/-- A credential descriptor, opaque for our purposes. -/
abbrev Cred := String

/-- A cache entry: `{ data }` or `{ promise }` (the source never stores both). -/
inductive Entry where
  | data (d : List Cred)
  | prom (pid : Nat)
deriving DecidableEq, Repr

/-- The cache, a JS `Map` modelled as an insertion-ordered association list. -/
abbrev Cache := List (String × Entry)

/-- `Map.get`. -/
def mapGet (c : Cache) (k : String) : Option Entry :=
  match c.find? (fun e => e.1 == k) with
  | some e => some e.2
  | none => none

/-- `Map.set`: replaces the value at the key in place, else appends. -/
def mapSet : Cache → String → Entry → Cache
  | [], k, v => [(k, v)]
  | e :: rest, k, v => if e.1 == k then (k, v) :: rest else e :: mapSet rest k v

/-- `Map.delete`. -/
def mapDelete (c : Cache) (k : String) : Cache :=
  c.filter (fun e => e.1 != k)

/-- The per-call configuration captured by the closure. -/
structure TaskCfg where
  apiKey : Option String
  clientId : String
  host : String
deriving DecidableEq, Repr

/-- Negation of the `!apiKey || !clientId` short-circuit guard. -/
def goodCfg (cfg : TaskCfg) : Bool :=
  optTruthy cfg.apiKey && strTruthy cfg.clientId

/-- The cache key `` `${clientId}-${walletConnectHost}` ``. -/
def cacheKey (cfg : TaskCfg) : String :=
  cfg.clientId ++ "-" ++ cfg.host

/-- Where a call currently stands. -/
inductive TaskPhase where
  | start
  | awaiting (pid : Nat)
  | done (r : Except String (List Cred))
deriving Repr

/-- An outstanding (unresolved) network request. -/
structure Request where
  pid : Nat
  key : String
deriving DecidableEq, Repr

/-- The event-loop state: the shared cache, a fresh-promise counter, the
count of network requests issued so far, the unresolved requests, the settled
promises with their results, and the calls with their phases. -/
structure Sys where
  cache : Cache
  nextPid : Nat
  requestsIssued : Nat
  outstanding : List Request
  resolved : List (Nat × Except String (List Cred))
  tasks : List (TaskCfg × TaskPhase)
deriving Repr

/-- Replace the phase of task `i`. -/
def setPhase (s : Sys) (i : Nat) (cfg : TaskCfg) (ph : TaskPhase) : Sys :=
  { s with tasks := s.tasks.set i (cfg, ph) }

/-- The synchronous prefix of `fetchRequestedCredentials`: the guard, the
`data` / `promise` cache probes, and — when neither hits — issuing the
request and publishing `{ promise }` into the cache, all before the first
suspension point. -/
def firstStep (s : Sys) (i : Nat) : Sys :=
  match s.tasks.get? i with
  | some (cfg, TaskPhase.start) =>
    if goodCfg cfg = false then setPhase s i cfg (.done (.ok []))
    else
      match mapGet s.cache (cacheKey cfg) with
      | some (.data d) => setPhase s i cfg (.done (.ok d))
      | some (.prom p) => setPhase s i cfg (.awaiting p)
      | none =>
        { s with
          cache := mapSet s.cache (cacheKey cfg) (.prom s.nextPid)
          nextPid := s.nextPid + 1
          requestsIssued := s.requestsIssued + 1
          outstanding := s.outstanding ++ [⟨s.nextPid, cacheKey cfg⟩]
          tasks := s.tasks.set i (cfg, .awaiting s.nextPid) }
  | _ => s

/-- Result of a settled promise, if it has settled. -/
def lookupResolved (l : List (Nat × Except String (List Cred))) (pid : Nat) :
    Option (Except String (List Cred)) :=
  match l.find? (fun e => e.1 == pid) with
  | some e => some e.2
  | none => none

/-- Completion of a network request: the IIFE continuation stores
`{ data }` on success or deletes the entry on failure, and the promise
settles with the corresponding result. -/
def resolveStep (s : Sys) (pid : Nat) (o : Except String (List Cred)) : Sys :=
  match s.outstanding.find? (fun r => r.pid == pid) with
  | some r =>
    { s with
      cache := match o with
        | .ok d => mapSet s.cache r.key (.data d)
        | .error _ => mapDelete s.cache r.key
      outstanding := s.outstanding.filter (fun q => q.pid != pid)
      resolved := (pid, o) :: s.resolved }
  | none => s

/-- Resumption of a call awaiting a settled promise. -/
def awaitStep (s : Sys) (i : Nat) : Sys :=
  match s.tasks.get? i with
  | some (cfg, TaskPhase.awaiting p) =>
    match lookupResolved s.resolved p with
    | some o => setPhase s i cfg (.done o)
    | none => s
  | _ => s

/-- Scheduler actions. -/
inductive Act where
  | first (i : Nat)
  | resolve (pid : Nat) (o : Except String (List Cred))
  | await (i : Nat)

/-- One scheduler step. -/
def step (s : Sys) (a : Act) : Sys :=
  match a with
  | .first i => firstStep s i
  | .resolve pid o => resolveStep s pid o
  | .await i => awaitStep s i

/-- Run a schedule. -/
def run (s : Sys) (sched : List Act) : Sys :=
  sched.foldl step s

/-- Initial state: empty module-level cache, one pending call per config. -/
def initSys (cfgs : List TaskCfg) : Sys :=
  { cache := [], nextPid := 0, requestsIssued := 0, outstanding := [], resolved := [],
    tasks := cfgs.map (fun c => (c, TaskPhase.start)) }

/-- The cache transitions the specification allows at a key: unchanged,
absent to in-flight, in-flight to resolved, or in-flight to absent. -/
def allowedTransition (x y : Option Entry) : Prop :=
  x = y ∨
  (x = none ∧ ∃ p, y = some (.prom p)) ∨
  (∃ p, x = some (.prom p) ∧ ((∃ d, y = some (.data d)) ∨ y = none))

/-! ## Theorems -/

theorem encodeChars_append (l1 l2 : List Char) :
    encodeChars (l1 ++ l2) = encodeChars l1 ++ encodeChars l2 := by
  induction l1 with
  | nil => simp [encodeChars]
  | cons c cs ih => simp [encodeChars, ih, String.append_assoc]

theorem encodeURIComponent_append (a b : String) :
    encodeURIComponent (a ++ b) = encodeURIComponent a ++ encodeURIComponent b := by
  simp [encodeURIComponent, String.data_append, encodeChars_append]

/-! ### List helpers -/

theorem list_get?_set_self {α : Type _} (l : List α) (i : Nat) (a : α) (h : i < l.length) :
    (l.set i a).get? i = some a := by
  induction l generalizing i with
  | nil => simp at h
  | cons x xs ih =>
    cases i with
    | zero => rfl
    | succ j => exact ih j (by simpa using h)

theorem list_get?_set_ne {α : Type _} (l : List α) {i j : Nat} (a : α) (h : i ≠ j) :
    (l.set i a).get? j = l.get? j := by
  induction l generalizing i j with
  | nil => simp
  | cons x xs ih =>
    cases i with
    | zero => cases j with
      | zero => exact absurd rfl h
      | succ j2 => rfl
    | succ i2 => cases j with
      | zero => rfl
      | succ j2 => exact ih (fun hc => h (by omega))

theorem list_set_of_get? {α : Type _} (l : List α) (i : Nat) (a : α) (h : l.get? i = some a) :
    l.set i a = l := by
  induction l generalizing i with
  | nil => simp at h
  | cons x xs ih =>
    cases i with
    | zero => simp_all
    | succ j => simpa using ih j (by simpa using h)

/-! ### Query-parameter lemmas -/

theorem paramsGet_cons (e : String × String) (rest : Params) (k : String) :
    paramsGet (e :: rest) k = if e.1 == k then some e.2 else paramsGet rest k := by
  by_cases h : e.1 = k <;> simp [paramsGet, List.find?_cons, h]

theorem removeParam_cons (e : String × String) (rest : Params) (k : String) :
    removeParam (e :: rest) k =
      if e.1 == k then removeParam rest k else e :: removeParam rest k := by
  by_cases h : e.1 = k <;> simp [removeParam, List.filter_cons, h]

theorem paramsGet_removeParam_self (p : Params) (k : String) :
    paramsGet (removeParam p k) k = none := by
  induction p with
  | nil => rfl
  | cons e rest ih =>
    rw [removeParam_cons]
    by_cases he : e.1 = k
    · rw [if_pos (by simp [he])]
      exact ih
    · rw [if_neg (by simp [he]), paramsGet_cons, if_neg (by simp [he])]
      exact ih

theorem paramsGet_removeParam_ne (p : Params) {k k' : String} (h : k ≠ k') :
    paramsGet (removeParam p k) k' = paramsGet p k' := by
  induction p with
  | nil => rfl
  | cons e rest ih =>
    rw [removeParam_cons]
    by_cases he : e.1 = k
    · rw [if_pos (by simp [he]), paramsGet_cons]
      have he' : (e.1 == k') = false := by simp [he]; exact h
      simp [he', ih]
    · rw [if_neg (by simp [he]), paramsGet_cons, paramsGet_cons]
      by_cases he' : e.1 = k' <;> simp [he', ih]

theorem removeParam_removeParam (p : Params) (k : String) :
    removeParam (removeParam p k) k = removeParam p k := by
  induction p with
  | nil => rfl
  | cons e rest ih =>
    rw [removeParam_cons]
    by_cases he : e.1 = k
    · rw [if_pos (by simp [he])]
      exact ih
    · rw [if_neg (by simp [he]), removeParam_cons, if_neg (by simp [he]), ih]

theorem removeParam_of_paramsGet_none (p : Params) (k : String)
    (h : paramsGet p k = none) : removeParam p k = p := by
  induction p with
  | nil => rfl
  | cons e rest ih =>
    rw [paramsGet_cons] at h
    by_cases he : e.1 = k
    · rw [if_pos (by simp [he])] at h
      simp at h
    · rw [if_neg (by simp [he])] at h
      rw [removeParam_cons, if_neg (by simp [he]), ih h]

/-! ### Claim C2: host resolution -/

/-- C2: for every triple of booleans, `getDefaultHost` returns one of exactly
eight fixed string literals; in particular `(false, false, false)` maps to
`https://wallet-connect.eu`, `(false, true, true)` maps to
`https://bw.issuance.wallet-connect.eu`, and `(true, false, false)` maps to
`http://localhost:3021`. -/
theorem getDefaultHost_spec :
    getDefaultHost false false false = "https://wallet-connect.eu" ∧
    getDefaultHost false true true = "https://bw.issuance.wallet-connect.eu" ∧
    getDefaultHost true false false = "http://localhost:3021" ∧
    (∀ u b i : Bool, getDefaultHost u b i ∈ hostLiterals) ∧
    hostLiterals.Nodup ∧ hostLiterals.length = 8 := by
  decide

/-! ### Claim C10: the `usecase` attribute -/

/-- C10: the `usecase` attribute rendered onto the wallet element is the
empty string whenever `issuance` is true and equals `clientId` whenever
`issuance` is false. -/
theorem usecase_attr_spec (props : WalletConnectButtonProps) (href : String) :
    (props.issuance = true → (renderWalletButton props href).usecase = "") ∧
    (props.issuance = false → (renderWalletButton props href).usecase = props.clientId) := by
  constructor <;> intro h <;> simp [renderWalletButton, h]

/-- Witness for `usecase_attr_spec` at a concrete configuration. -/
theorem usecase_attr_spec_witness :
     let props : WalletConnectButtonProps :=
      { label := none, clientId := "abc", apiKey := none, useLocalWcServer := false,
        business := false, lang := none, helpBaseUrl := none, issuance := true }
    (renderWalletButton props "https://rp.example").usecase = "" := by
  exact (usecase_attr_spec _ "https://rp.example").1 rfl

/-! ### Claim C5: the `success`-event handler -/

/-- C5: on a `success` event the handler writes `session_token` into the
query-parameter store exactly when the payload has at least two elements and
the second one is `cross_device`; in every other case the parameters are left
unchanged. -/
theorem handleSuccess_spec (detail : List String) (p : Params) :
    (∀ tok ty rest, detail = tok :: ty :: rest →
      handleSuccess detail p =
        if ty = "cross_device" then setSearchParams p [("session_token", tok)] else p) ∧
    (detail.length < 2 → handleSuccess detail p = p) := by
  constructor
  · rintro tok ty rest rfl
    by_cases h : ty = "cross_device" <;> simp [handleSuccess, h]
  · intro h
    match detail, h with
    | [], _ => rfl
    | [a], _ => rfl
    | a :: b :: t, h => simp at h; omega

/-- Witness for `handleSuccess_spec`: a two-element `cross_device` payload
writes the token. -/
theorem handleSuccess_spec_witness :
    handleSuccess ["tok", "cross_device"] [("x", "1")] =
      (if "cross_device" = "cross_device"
       then setSearchParams [("x", "1")] [("session_token", "tok")] else [("x", "1")]) :=
  (handleSuccess_spec ["tok", "cross_device"] [("x", "1")]).1 "tok" "cross_device" [] rfl

/-! ### Claim C7: query-parameter round trip -/

/-- C7 counterexample: when the key already occurs in the starting URL,
`set` then `remove` does not restore the prior query string — the original
pair for that key is gone as well. -/
theorem searchParams_roundtrip_counterexample :
    ¬ List.Perm (removeParam (setParam [("a", "1")] "a" "2") "a") [("a", "1")] := by
  decide

/-- C7 amended: `set(key, value)` followed by `remove(key)` yields the prior
query string with every pair for that key removed; in particular, when the
key did not occur in the prior URL, the query string is restored exactly. -/
theorem searchParams_set_remove (p : Params) (k v : String) :
    removeParam (setParam p k v) k = removeParam p k ∧
    (paramsGet p k = none → removeParam (setParam p k v) k = p) := by
  have main : ∀ q : Params, removeParam (setParam q k v) k = removeParam q k := by
    intro q
    induction q with
    | nil =>
      show removeParam [(k, v)] k = removeParam [] k
      rw [removeParam_cons, if_pos (by simp)]
    | cons e rest ih =>
      show removeParam (if e.1 == k then (k, v) :: removeParam rest k
        else e :: setParam rest k v) k = removeParam (e :: rest) k
      by_cases he : e.1 = k
      · rw [if_pos (by simp [he]), removeParam_cons, if_pos (by simp),
          removeParam_removeParam, removeParam_cons, if_pos (by simp [he])]
      · rw [if_neg (by simp [he]), removeParam_cons, if_neg (by simp [he]), ih,
          removeParam_cons, if_neg (by simp [he])]
  refine ⟨main p, fun hnone => ?_⟩
  rw [main p, removeParam_of_paramsGet_none p k hnone]

/-- Witness for `searchParams_set_remove`: for a URL not containing the key,
the round trip is the identity. -/
theorem searchParams_set_remove_witness :
    removeParam (setParam [("x", "1")] "a" "2") "a" = [("x", "1")] :=
  (searchParams_set_remove [("x", "1")] "a" "2").2 (by decide)

/-! ### Claim C4: disclosed-attributes cleanup -/

/-- C4 counterexample: with the URL `?session_token=tok&nonce=`, the `nonce`
parameter is present, the fetch completes successfully (the callback fires),
yet `nonce` is not removed — `if (nonce)` is false for the empty string. -/
theorem disclosed_nonce_counterexample :
    paramsGet [("session_token", "tok"), ("nonce", "")] "nonce" ≠ none ∧
    (disclosedAttributesEffect String "https://wallet-connect.eu" (some "key") "abc"
      [("session_token", "tok"), ("nonce", "")] (.ok "payload")).callback = some "payload" ∧
    paramsGet (disclosedAttributesEffect String "https://wallet-connect.eu" (some "key") "abc"
      [("session_token", "tok"), ("nonce", "")] (.ok "payload")).params "nonce" ≠ none := by
  refine ⟨by decide, rfl, by decide⟩

/-- C4 amended: whenever the fetch triggered by a (truthy) `session_token`
completes, `session_token` is removed in both branches, and `nonce` is
removed whenever it was present with a non-empty value; on success the
callback receives the raw payload, and on failure the error message is
recorded and the widget renders the error state. -/
theorem disclosed_cleanup_spec (π : Type) (host : String) (apiKey : Option String)
    (clientId : String) (p : Params) (o : Except String π) (r : EffectResult π)
    (htok : optTruthy (paramsGet p "session_token") = true)
    (hr : r = disclosedAttributesEffect π host apiKey clientId p o) :
    paramsGet r.params "session_token" = none ∧
    (optTruthy (paramsGet p "nonce") = true → paramsGet r.params "nonce" = none) ∧
    (∀ payload, o = .ok payload → r.callback = some payload ∧ r.errorMsg = none) ∧
    (∀ msg, o = .error msg → r.errorMsg = some msg ∧ r.callback = none ∧
      renderOf r.loading r.errorMsg = .errorCard msg) := by
  have hclean : ∀ q : Params,
      q = (if optTruthy (paramsGet p "nonce")
           then removeParam (removeParam p "session_token") "nonce"
           else removeParam p "session_token") →
      paramsGet q "session_token" = none ∧
      (optTruthy (paramsGet p "nonce") = true → paramsGet q "nonce" = none) := by
    rintro q rfl
    by_cases hn : optTruthy (paramsGet p "nonce") = true
    · rw [if_pos hn]
      refine ⟨?_, fun _ => paramsGet_removeParam_self _ _⟩
      rw [paramsGet_removeParam_ne _ (by decide), paramsGet_removeParam_self]
    · rw [if_neg hn]
      exact ⟨paramsGet_removeParam_self _ _, fun h => absurd h hn⟩
  subst hr
  cases o with
  | ok payload =>
    rw [disclosedAttributesEffect, if_neg (by simp [htok])]
    refine ⟨(hclean _ rfl).1, (hclean _ rfl).2, ?_, ?_⟩
    · rintro payload2 h
      cases h
      exact ⟨rfl, rfl⟩
    · rintro msg h
      cases h
  | error msg =>
    rw [disclosedAttributesEffect, if_neg (by simp [htok])]
    refine ⟨(hclean _ rfl).1, (hclean _ rfl).2, ?_, ?_⟩
    · rintro payload h
      cases h
    · rintro msg2 h
      cases h
      exact ⟨rfl, rfl, rfl⟩

/-- Witness for `disclosed_cleanup_spec` at a concrete successful fetch. -/
theorem disclosed_cleanup_spec_witness :
    paramsGet (disclosedAttributesEffect String "https://wallet-connect.eu" (some "key") "abc"
      [("session_token", "tok"), ("nonce", "n1")] (.ok "payload")).params "session_token"
      = none :=
  (disclosed_cleanup_spec String "https://wallet-connect.eu" (some "key") "abc"
    [("session_token", "tok"), ("nonce", "n1")] (.ok "payload") _ (by decide) rfl).1

/-! ### Claim C9: the shadow-DOM injection retry loop -/

theorem inject_delays_bound (env : DomEnv) (credentials : List String) :
    ∀ n rc, maxRetries + 1 - rc ≤ n →
      (injectCredentialsIntoShadowDOM env credentials rc).2.length ≤ maxRetries - rc ∧
      ∀ d ∈ (injectCredentialsIntoShadowDOM env credentials rc).2, d = 200 := by
  intro n
  induction n with
  | zero =>
    intro rc h
    have hge : maxRetries < rc := by omega
    rw [injectCredentialsIntoShadowDOM]
    by_cases h1 : env.hasButtonAt rc = false
    · simp [h1]
    · by_cases h2 : credentials.length = 0
      · simp [h1, h2]
      · by_cases h3 : env.modalAt rc = false
        · rw [if_neg h1, if_neg h2, if_pos h3,
            if_neg (by omega : ¬ rc < maxRetries)]
          simp
        · by_cases h4 : env.websiteAt rc <;>
            simp [h1, h2, h3, h4]
  | succ n ih =>
    intro rc h
    rw [injectCredentialsIntoShadowDOM]
    by_cases h1 : env.hasButtonAt rc = false
    · simp [h1]
    · by_cases h2 : credentials.length = 0
      · simp [h1, h2]
      · by_cases h3 : env.modalAt rc = false
        · by_cases h4 : rc < maxRetries
          · rw [if_neg h1, if_neg h2, if_pos h3, if_pos h4]
            have hrec := ih (rc + 1) (by omega)
            constructor
            · simp only [List.length_cons]
              omega
            · intro d hd
              simp only [List.mem_cons] at hd
              rcases hd with hd | hd
              · exact hd
              · exact hrec.2 d hd
          · rw [if_neg h1, if_neg h2, if_pos h3, if_neg h4]
            simp
        · by_cases h4 : env.websiteAt rc <;>
            simp [h1, h2, h3, h4]

theorem inject_gives_up (env : DomEnv) (credentials : List String)
    (hbtn : ∀ t, t ≤ maxRetries → env.hasButtonAt t = true)
    (hcred : credentials.length ≠ 0)
    (hmodal : ∀ t, t ≤ maxRetries → env.modalAt t = false) :
    ∀ n rc, rc + n = maxRetries →
      injectCredentialsIntoShadowDOM env credentials rc =
        (.gaveUp, List.replicate n 200) := by
  intro n
  induction n with
  | zero =>
    intro rc h
    have hrc : rc = maxRetries := by omega
    subst hrc
    rw [injectCredentialsIntoShadowDOM,
      if_neg (by simp [hbtn maxRetries le_rfl]), if_neg hcred,
      if_pos (hmodal maxRetries le_rfl), if_neg (by omega : ¬ maxRetries < maxRetries)]
    rfl
  | succ n ih =>
    intro rc h
    rw [injectCredentialsIntoShadowDOM,
      if_neg (by simp [hbtn rc (by omega)]), if_neg hcred,
      if_pos (hmodal rc (by omega)), if_pos (by omega : rc < maxRetries),
      ih (rc + 1) (by omega)]
    rfl

/-- C9: the injection chain schedules at most 10 retries, every scheduled
delay is 200ms, and when the modal never shows up within the retry window
(button present, credentials non-empty) the chain ends in `gaveUp` — it
inserts nothing and raises no error, and the recursion terminates because
the retry counter climbs to the fixed bound. -/
theorem injectCredentials_retry_spec (env : DomEnv) (credentials : List String) :
    (injectCredentialsIntoShadowDOM env credentials 0).2.length ≤ 10 ∧
    (∀ d ∈ (injectCredentialsIntoShadowDOM env credentials 0).2, d = 200) ∧
    ((∀ t, t ≤ 10 → env.hasButtonAt t = true) → credentials ≠ [] →
      (∀ t, t ≤ 10 → env.modalAt t = false) →
      injectCredentialsIntoShadowDOM env credentials 0 =
        (.gaveUp, List.replicate 10 200)) := by
  have hb := inject_delays_bound env credentials (maxRetries + 1) 0 le_rfl
  refine ⟨hb.1, hb.2, fun h1 h2 h3 => ?_⟩
  have h2' : credentials.length ≠ 0 := by
    intro hz
    exact h2 (List.length_eq_zero.mp hz)
  exact inject_gives_up env credentials h1 h2' h3 maxRetries 0 rfl

/-- Witness for `injectCredentials_retry_spec`: with a DOM where the modal
never appears the chain gives up after exactly 10 retries of 200ms. -/
theorem injectCredentials_retry_spec_witness :
    injectCredentialsIntoShadowDOM
      ⟨fun _ => true, fun _ => false, fun _ => false⟩ ["cred"] 0 =
      (.gaveUp, List.replicate 10 200) :=
  (injectCredentials_retry_spec ⟨fun _ => true, fun _ => false, fun _ => false⟩ ["cred"]).2.2
    (fun _ _ => rfl) (by simp) (fun _ _ => rfl)

/-! ### Claim C3: deep-link structure -/

theorem encodeURIComponent_same_device :
    encodeURIComponent "same_device" = "same_device" := by decide

theorem encodeURIComponent_cross_device :
    encodeURIComponent "cross_device" = "cross_device" := by decide

theorem encodeURIComponent_split_sd :
    encodeURIComponent "/request_uri?session_type=same_device" =
      encodeURIComponent "/request_uri?session_type=" ++ "same_device" := by decide

theorem encodeURIComponent_split_cd :
    encodeURIComponent "/request_uri?session_type=cross_device" =
      encodeURIComponent "/request_uri?session_type=" ++ "cross_device" := by decide

theorem lit_merge_sd (x : String) :
    ("same_device" : String) ++ ("&request_uri_method=post&client_id=" ++ x) =
      "same_device&request_uri_method=post&client_id=" ++ x := by
  have h1 : (("same_device" : String) ++ "&request_uri_method=post&client_id=") =
      "same_device&request_uri_method=post&client_id=" := by decide
  rw [← String.append_assoc, h1]

theorem lit_merge_cd (x : String) :
    ("cross_device" : String) ++ ("&request_uri_method=post&client_id=" ++ x) =
      "cross_device&request_uri_method=post&client_id=" ++ x := by
  have h1 : (("cross_device" : String) ++ "&request_uri_method=post&client_id=") =
      "cross_device&request_uri_method=post&client_id=" := by decide
  rw [← String.append_assoc, h1]

/-- C3: for every `(clientId, host, business)` the two deep links share one
head (scheme iff business, fixed path, the once-encoded request-URI stem) and
one tail (the fixed `request_uri_method=post` and the synthesized
`{clientId}.example.com` client id), differing only in the `session_type`
value; the nested request URI is URL-encoded exactly once. -/
theorem constructURI_spec (c h : String) (b : Bool) :
    constructURI c "same_device" h b = linkHead c h b ++ "same_device" ++ linkTail c ∧
    constructURI c "cross_device" h b = linkHead c h b ++ "cross_device" ++ linkTail c ∧
    linkHead c h b = deepLinkScheme b ++ "/disclosure_based_issuance?request_uri=" ++
      encodeURIComponent (h ++ "/disclosure/" ++ c ++ "/request_uri?session_type=") ∧
    linkTail c = "&request_uri_method=post&client_id=" ++ c ++ ".example.com" := by
  refine ⟨?_, ?_, rfl, rfl⟩ <;>
    simp [constructURI, linkHead, linkTail, String.append_assoc, encodeURIComponent_append,
      encodeURIComponent_split_sd, encodeURIComponent_split_cd, lit_merge_sd, lit_merge_cd]

/-! ### Claim C6: the `!apiKey || !clientId` short-circuit -/

/-- C6: a call to `fetchRequestedCredentials` whose `apiKey` or `clientId`
is absent (falsy) completes immediately with the empty list, issues no
network request and leaves the cache untouched. -/
theorem fetch_short_circuit (s : Sys) (i : Nat) (cfg : TaskCfg)
    (h : s.tasks.get? i = some (cfg, .start)) (hbad : goodCfg cfg = false) :
    (firstStep s i).cache = s.cache ∧
    (firstStep s i).requestsIssued = s.requestsIssued ∧
    (firstStep s i).outstanding = s.outstanding ∧
    (firstStep s i).tasks.get? i = some (cfg, .done (.ok [])) := by
  have hi : i < s.tasks.length := by
    by_contra hge
    rw [List.get?_eq_none.mpr (by omega)] at h
    exact Option.noConfusion h
  have hfs : firstStep s i = setPhase s i cfg (.done (.ok [])) := by
    rw [firstStep, h]
    simp [hbad]
  rw [hfs]
  exact ⟨rfl, rfl, rfl, list_get?_set_self _ _ _ hi⟩

/-- Witness for `fetch_short_circuit`: a call with no `apiKey`. -/
theorem fetch_short_circuit_witness :
    (firstStep (initSys [{ apiKey := none, clientId := "abc", host := "h" }]) 0).tasks.get? 0 =
      some ({ apiKey := none, clientId := "abc", host := "h" }, .done (.ok [])) :=
  (fetch_short_circuit (initSys [{ apiKey := none, clientId := "abc", host := "h" }]) 0
    { apiKey := none, clientId := "abc", host := "h" } rfl rfl).2.2.2

/-! ### Cache-map lemmas -/

theorem mapGet_cons (e : String × Entry) (rest : Cache) (k : String) :
    mapGet (e :: rest) k = if e.1 == k then some e.2 else mapGet rest k := by
  by_cases h : e.1 = k <;> simp [mapGet, List.find?_cons, h]

theorem mapSet_cons (e : String × Entry) (rest : Cache) (k : String) (v : Entry) :
    mapSet (e :: rest) k v = if e.1 == k then (k, v) :: rest else e :: mapSet rest k v := rfl

theorem mapGet_mapSet_self (c : Cache) (k : String) (v : Entry) :
    mapGet (mapSet c k v) k = some v := by
  induction c with
  | nil => simp [mapSet, mapGet_cons, mapGet]
  | cons e rest ih =>
    rw [mapSet_cons]
    by_cases h : e.1 = k
    · rw [if_pos (by simp [h]), mapGet_cons, if_pos (by simp)]
    · rw [if_neg (by simp [h]), mapGet_cons, if_neg (by simp [h])]
      exact ih

theorem mapGet_mapSet_ne (c : Cache) (v : Entry) {k k' : String} (h : k ≠ k') :
    mapGet (mapSet c k v) k' = mapGet c k' := by
  induction c with
  | nil =>
    show mapGet [(k, v)] k' = mapGet [] k'
    rw [mapGet_cons, if_neg (by simp; exact h)]
  | cons e rest ih =>
    rw [mapSet_cons]
    by_cases he : e.1 = k
    · rw [if_pos (by simp [he]), mapGet_cons, if_neg (by simp; exact h), mapGet_cons,
        if_neg (by simp [he]; intro hc; exact h (hc ▸ rfl))]
    · rw [if_neg (by simp [he]), mapGet_cons, mapGet_cons]
      by_cases he' : e.1 = k' <;> simp [he', ih]

theorem mapDelete_cons (e : String × Entry) (rest : Cache) (k : String) :
    mapDelete (e :: rest) k =
      if e.1 == k then mapDelete rest k else e :: mapDelete rest k := by
  by_cases h : e.1 = k <;> simp [mapDelete, List.filter_cons, h]

theorem mapGet_mapDelete_self (c : Cache) (k : String) :
    mapGet (mapDelete c k) k = none := by
  induction c with
  | nil => rfl
  | cons e rest ih =>
    rw [mapDelete_cons]
    by_cases he : e.1 = k
    · rw [if_pos (by simp [he])]
      exact ih
    · rw [if_neg (by simp [he]), mapGet_cons, if_neg (by simp [he])]
      exact ih

theorem mapGet_mapDelete_ne (c : Cache) {k k' : String} (h : k ≠ k') :
    mapGet (mapDelete c k) k' = mapGet c k' := by
  induction c with
  | nil => rfl
  | cons e rest ih =>
    rw [mapDelete_cons]
    by_cases he : e.1 = k
    · rw [if_pos (by simp [he]), mapGet_cons,
        if_neg (by simp [he]; intro hc; exact h (hc ▸ rfl))]
      exact ih
    · rw [if_neg (by simp [he]), mapGet_cons, mapGet_cons]
      by_cases he' : e.1 = k' <;> simp [he', ih]

theorem mem_keys_mapSet (c : Cache) (k : String) (v : Entry) (a : String)
    (h : a ∈ (mapSet c k v).map Prod.fst) : a ∈ c.map Prod.fst ∨ a = k := by
  induction c with
  | nil =>
    refine Or.inr ?_
    rw [show mapSet [] k v = [(k, v)] from rfl, List.map_cons] at h
    rcases List.mem_cons.mp h with h | h
    · exact h
    · simp at h
  | cons e rest ih =>
    rw [mapSet_cons] at h
    by_cases he : e.1 = k
    · rw [if_pos (by simp [he]), List.map_cons] at h
      rcases List.mem_cons.mp h with h | h
      · exact Or.inr h
      · exact Or.inl (by rw [List.map_cons]; exact List.mem_cons_of_mem _ h)
    · rw [if_neg (by simp [he]), List.map_cons] at h
      rcases List.mem_cons.mp h with h | h
      · exact Or.inl (by rw [List.map_cons]; exact h ▸ List.mem_cons_self _ _)
      · rcases ih h with h2 | h2
        · exact Or.inl (by rw [List.map_cons]; exact List.mem_cons_of_mem _ h2)
        · exact Or.inr h2

theorem nodup_keys_mapSet (c : Cache) (k : String) (v : Entry)
    (h : (c.map Prod.fst).Nodup) : ((mapSet c k v).map Prod.fst).Nodup := by
  induction c with
  | nil => simp [mapSet]
  | cons e rest ih =>
    rw [List.map_cons, List.nodup_cons] at h
    rw [mapSet_cons]
    by_cases he : e.1 = k
    · rw [if_pos (by simp [he]), List.map_cons, List.nodup_cons]
      exact ⟨he ▸ h.1, h.2⟩
    · rw [if_neg (by simp [he]), List.map_cons, List.nodup_cons]
      refine ⟨fun hmem => ?_, ih h.2⟩
      rcases mem_keys_mapSet rest k v e.1 hmem with h2 | h2
      · exact h.1 h2
      · exact he h2

theorem nodup_keys_mapDelete (c : Cache) (k : String)
    (h : (c.map Prod.fst).Nodup) : ((mapDelete c k).map Prod.fst).Nodup := by
  have hsub : (mapDelete c k).Sublist c := List.filter_sublist c
  exact (hsub.map Prod.fst).nodup h

/-! ### Step characterizations -/

theorem firstStep_get?_none (s : Sys) (i : Nat) (h : s.tasks.get? i = none) :
    firstStep s i = s := by
  rw [firstStep, h]

theorem firstStep_awaiting (s : Sys) (i : Nat) (cfg : TaskCfg) (p : Nat)
    (h : s.tasks.get? i = some (cfg, .awaiting p)) : firstStep s i = s := by
  rw [firstStep, h]

theorem firstStep_done (s : Sys) (i : Nat) (cfg : TaskCfg) (r : Except String (List Cred))
    (h : s.tasks.get? i = some (cfg, .done r)) : firstStep s i = s := by
  rw [firstStep, h]

theorem firstStep_start_bad (s : Sys) (i : Nat) (cfg : TaskCfg)
    (h : s.tasks.get? i = some (cfg, .start)) (hbad : goodCfg cfg = false) :
    firstStep s i = setPhase s i cfg (.done (.ok [])) := by
  rw [firstStep, h]
  simp [hbad]

theorem firstStep_start_data (s : Sys) (i : Nat) (cfg : TaskCfg) (d : List Cred)
    (h : s.tasks.get? i = some (cfg, .start)) (hgood : goodCfg cfg = true)
    (hc : mapGet s.cache (cacheKey cfg) = some (.data d)) :
    firstStep s i = setPhase s i cfg (.done (.ok d)) := by
  rw [firstStep, h]
  simp [hgood, hc]

theorem firstStep_start_prom (s : Sys) (i : Nat) (cfg : TaskCfg) (p : Nat)
    (h : s.tasks.get? i = some (cfg, .start)) (hgood : goodCfg cfg = true)
    (hc : mapGet s.cache (cacheKey cfg) = some (.prom p)) :
    firstStep s i = setPhase s i cfg (.awaiting p) := by
  rw [firstStep, h]
  simp [hgood, hc]

theorem firstStep_start_create (s : Sys) (i : Nat) (cfg : TaskCfg)
    (h : s.tasks.get? i = some (cfg, .start)) (hgood : goodCfg cfg = true)
    (hc : mapGet s.cache (cacheKey cfg) = none) :
    firstStep s i =
      { s with
        cache := mapSet s.cache (cacheKey cfg) (.prom s.nextPid)
        nextPid := s.nextPid + 1
        requestsIssued := s.requestsIssued + 1
        outstanding := s.outstanding ++ [⟨s.nextPid, cacheKey cfg⟩]
        tasks := s.tasks.set i (cfg, .awaiting s.nextPid) } := by
  rw [firstStep, h]
  simp [hgood, hc]

theorem resolveStep_not_found (s : Sys) (pid : Nat) (o : Except String (List Cred))
    (h : s.outstanding.find? (fun q => q.pid == pid) = none) :
    resolveStep s pid o = s := by
  rw [resolveStep, h]

theorem resolveStep_found_ok (s : Sys) (pid : Nat) (d : List Cred) (r : Request)
    (h : s.outstanding.find? (fun q => q.pid == pid) = some r) :
    resolveStep s pid (.ok d) =
      { s with
        cache := mapSet s.cache r.key (.data d)
        outstanding := s.outstanding.filter (fun q => q.pid != pid)
        resolved := (pid, .ok d) :: s.resolved } := by
  rw [resolveStep, h]

theorem resolveStep_found_err (s : Sys) (pid : Nat) (msg : String) (r : Request)
    (h : s.outstanding.find? (fun q => q.pid == pid) = some r) :
    resolveStep s pid (.error msg) =
      { s with
        cache := mapDelete s.cache r.key
        outstanding := s.outstanding.filter (fun q => q.pid != pid)
        resolved := (pid, .error msg) :: s.resolved } := by
  rw [resolveStep, h]

theorem awaitStep_cache_fields (s : Sys) (i : Nat) :
    (awaitStep s i).cache = s.cache ∧ (awaitStep s i).outstanding = s.outstanding ∧
    (awaitStep s i).requestsIssued = s.requestsIssued ∧
    (awaitStep s i).resolved = s.resolved := by
  rw [awaitStep]
  split
  · split <;> exact ⟨rfl, rfl, rfl, rfl⟩
  · exact ⟨rfl, rfl, rfl, rfl⟩

/-! ### The cache invariant -/

/-- Inductive invariant: cache keys are unique, and every outstanding request
has its own in-flight promise published at its key. -/
def InvSys (s : Sys) : Prop :=
  (s.cache.map Prod.fst).Nodup ∧
  ∀ r ∈ s.outstanding, mapGet s.cache r.key = some (.prom r.pid)

theorem invSys_init (cfgs : List TaskCfg) : InvSys (initSys cfgs) := by
  refine ⟨List.nodup_nil, fun r hr => ?_⟩
  simp [initSys] at hr

theorem invSys_step (s : Sys) (a : Act) (h : InvSys s) : InvSys (step s a) := by
  obtain ⟨hnd, hout⟩ := h
  cases a with
  | first i =>
    show InvSys (firstStep s i)
    cases hj : s.tasks.get? i with
    | none => rw [firstStep_get?_none s i hj]; exact ⟨hnd, hout⟩
    | some tp =>
      obtain ⟨cfg, ph⟩ := tp
      cases ph with
      | start =>
        cases hg : goodCfg cfg with
        | false => rw [firstStep_start_bad s i cfg hj hg]; exact ⟨hnd, hout⟩
        | true =>
          cases hc : mapGet s.cache (cacheKey cfg) with
          | none =>
            rw [firstStep_start_create s i cfg hj hg hc]
            refine ⟨nodup_keys_mapSet _ _ _ hnd, fun r hr => ?_⟩
            rcases List.mem_append.mp hr with hr | hr
            · have hr2 := hout r hr
              have hne : cacheKey cfg ≠ r.key := by
                intro he
                rw [← he, hc] at hr2
                exact Option.noConfusion hr2
              rw [mapGet_mapSet_ne _ _ hne]
              exact hr2
            · have hr2 : r = ⟨s.nextPid, cacheKey cfg⟩ := by simpa using hr
              subst hr2
              exact mapGet_mapSet_self _ _ _
          | some e =>
            cases e with
            | data d => rw [firstStep_start_data s i cfg d hj hg hc]; exact ⟨hnd, hout⟩
            | prom p => rw [firstStep_start_prom s i cfg p hj hg hc]; exact ⟨hnd, hout⟩
      | awaiting p => rw [firstStep_awaiting s i cfg p hj]; exact ⟨hnd, hout⟩
      | done r => rw [firstStep_done s i cfg r hj]; exact ⟨hnd, hout⟩
  | resolve pid o =>
    show InvSys (resolveStep s pid o)
    cases hf : s.outstanding.find? (fun q => q.pid == pid) with
    | none => rw [resolveStep_not_found s pid o hf]; exact ⟨hnd, hout⟩
    | some r =>
      have hrmem : r ∈ s.outstanding := List.mem_of_find?_eq_some hf
      have hrpid : r.pid = pid := by
        have := List.find?_some hf
        simpa using this
      have hrk := hout r hrmem
      have hrest : ∀ q ∈ s.outstanding.filter (fun q => q.pid != pid),
          q.key ≠ r.key ∧ mapGet s.cache q.key = some (.prom q.pid) := by
        intro q hq
        have hq1 : q ∈ s.outstanding := List.mem_of_mem_filter hq
        have hq2 : q.pid ≠ pid := by
          have := List.of_mem_filter hq
          simpa using this
        have hql := hout q hq1
        refine ⟨fun he => ?_, hql⟩
        rw [he, hrk] at hql
        have : q.pid = r.pid := by
          have := Option.some.inj hql
          exact (Entry.prom.inj this).symm
        exact hq2 (this.trans hrpid)
      cases o with
      | ok d =>
        rw [resolveStep_found_ok s pid d r hf]
        refine ⟨nodup_keys_mapSet _ _ _ hnd, fun q hq => ?_⟩
        obtain ⟨hne, hql⟩ := hrest q hq
        rw [mapGet_mapSet_ne _ _ (fun he => hne he.symm)]
        exact hql
      | error msg =>
        rw [resolveStep_found_err s pid msg r hf]
        refine ⟨nodup_keys_mapDelete _ _ hnd, fun q hq => ?_⟩
        obtain ⟨hne, hql⟩ := hrest q hq
        rw [mapGet_mapDelete_ne _ (fun he => hne he.symm)]
        exact hql
  | await i =>
    show InvSys (awaitStep s i)
    obtain ⟨hc, ho, _, _⟩ := awaitStep_cache_fields s i
    rw [InvSys, hc, ho]
    exact ⟨hnd, hout⟩

theorem invSys_run (s : Sys) (h : InvSys s) (sched : List Act) : InvSys (run s sched) := by
  induction sched generalizing s with
  | nil => exact h
  | cons a rest ih => exact ih (step s a) (invSys_step s a h)

theorem step_allowed (s : Sys) (hI : InvSys s) (a : Act) (k : String) :
    allowedTransition (mapGet s.cache k) (mapGet (step s a).cache k) := by
  obtain ⟨hnd, hout⟩ := hI
  cases a with
  | first i =>
    show allowedTransition _ (mapGet (firstStep s i).cache k)
    cases hj : s.tasks.get? i with
    | none => rw [firstStep_get?_none s i hj]; exact Or.inl rfl
    | some tp =>
      obtain ⟨cfg, ph⟩ := tp
      cases ph with
      | start =>
        cases hg : goodCfg cfg with
        | false => rw [firstStep_start_bad s i cfg hj hg]; exact Or.inl rfl
        | true =>
          cases hc : mapGet s.cache (cacheKey cfg) with
          | none =>
            rw [firstStep_start_create s i cfg hj hg hc]
            by_cases hk : k = cacheKey cfg
            · subst hk
              exact Or.inr (Or.inl ⟨hc, s.nextPid, mapGet_mapSet_self _ _ _⟩)
            · exact Or.inl (mapGet_mapSet_ne _ _ (fun he => hk he.symm)).symm
          | some e =>
            cases e with
            | data d => rw [firstStep_start_data s i cfg d hj hg hc]; exact Or.inl rfl
            | prom p => rw [firstStep_start_prom s i cfg p hj hg hc]; exact Or.inl rfl
      | awaiting p => rw [firstStep_awaiting s i cfg p hj]; exact Or.inl rfl
      | done r => rw [firstStep_done s i cfg r hj]; exact Or.inl rfl
  | resolve pid o =>
    show allowedTransition _ (mapGet (resolveStep s pid o).cache k)
    cases hf : s.outstanding.find? (fun q => q.pid == pid) with
    | none => rw [resolveStep_not_found s pid o hf]; exact Or.inl rfl
    | some r =>
      have hrmem : r ∈ s.outstanding := List.mem_of_find?_eq_some hf
      have hrk := hout r hrmem
      cases o with
      | ok d =>
        rw [resolveStep_found_ok s pid d r hf]
        by_cases hk : k = r.key
        · subst hk
          exact Or.inr (Or.inr ⟨r.pid, hrk, Or.inl ⟨d, mapGet_mapSet_self _ _ _⟩⟩)
        · exact Or.inl (mapGet_mapSet_ne _ _ (fun he => hk he.symm)).symm
      | error msg =>
        rw [resolveStep_found_err s pid msg r hf]
        by_cases hk : k = r.key
        · subst hk
          exact Or.inr (Or.inr ⟨r.pid, hrk, Or.inr (mapGet_mapDelete_self _ _)⟩)
        · exact Or.inl (mapGet_mapDelete_ne _ (fun he => hk he.symm)).symm
  | await i =>
    show allowedTransition _ (mapGet (awaitStep s i).cache k)
    rw [(awaitStep_cache_fields s i).1]
    exact Or.inl rfl

/-! ### Claim C8: the cache invariant -/

/-- C8: in every reachable state the cache has at most one entry per key
(unique keys), each entry is either resolved data or an in-flight promise
(the `Entry` type), and any single step changes a key's entry only along the
allowed transitions — absent to in-flight, in-flight to resolved, in-flight
to absent — so a resolved entry is never evicted or replaced. -/
theorem credentialsCache_invariant (cfgs : List TaskCfg) (sched : List Act) (a : Act)
    (k : String) :
    ((run (initSys cfgs) sched).cache.map Prod.fst).Nodup ∧
    allowedTransition (mapGet (run (initSys cfgs) sched).cache k)
      (mapGet (step (run (initSys cfgs) sched) a).cache k) ∧
    (∀ d, mapGet (run (initSys cfgs) sched).cache k = some (.data d) →
      mapGet (step (run (initSys cfgs) sched) a).cache k = some (.data d)) := by
  have hI := invSys_run (initSys cfgs) (invSys_init cfgs) sched
  refine ⟨hI.1, step_allowed _ hI a k, fun d hd => ?_⟩
  rcases step_allowed _ hI a k with h | ⟨h1, _⟩ | ⟨p, h1, _⟩
  · rw [← h]
    exact hd
  · rw [hd] at h1
    exact Option.noConfusion h1
  · rw [hd] at h1
    exact Entry.noConfusion (Option.some.inj h1)

/-- Witness for `credentialsCache_invariant`: after one call and a successful
resolution the resolved entry survives any further step. -/
theorem credentialsCache_invariant_witness :
    mapGet (step (run (initSys [⟨some "key", "abc", "h"⟩])
        [Act.first 0, Act.resolve 0 (.ok ["credA"])]) (Act.resolve 1 (.error "x"))).cache
      (cacheKey ⟨some "key", "abc", "h"⟩) = some (.data ["credA"]) :=
  (credentialsCache_invariant [⟨some "key", "abc", "h"⟩]
    [Act.first 0, Act.resolve 0 (.ok ["credA"])] (Act.resolve 1 (.error "x"))
    (cacheKey ⟨some "key", "abc", "h"⟩)).2.2 ["credA"] (by decide)

/-! ### More list helpers, for the deduplication proof -/

theorem list_get?_some_lt {α : Type _} (l : List α) (i : Nat) (a : α)
    (h : l.get? i = some a) : i < l.length := by
  induction l generalizing i with
  | nil => simp at h
  | cons x xs ih =>
    cases i with
    | zero => simp
    | succ j => exact Nat.succ_lt_succ (ih j (by simpa using h))

theorem list_set_of_get?_none {α : Type _} (l : List α) (i : Nat) (a : α)
    (h : l.get? i = none) : l.set i a = l := by
  induction l generalizing i with
  | nil => rfl
  | cons x xs ih =>
    cases i with
    | zero => simp at h
    | succ j =>
      show x :: xs.set j a = x :: xs
      rw [ih j (by simpa using h)]

theorem list_get?_replicate {α : Type _} (a : α) (n i : Nat) (h : i < n) :
    (List.replicate n a).get? i = some a := by
  induction n generalizing i with
  | zero => omega
  | succ m ih =>
    cases i with
    | zero => rfl
    | succ j => exact ih j (by omega)

theorem list_get?_replicate_eq {α : Type _} (b : α) (n i : Nat) (a : α)
    (h : (List.replicate n b).get? i = some a) : a = b := by
  have hlt : i < n := by
    have := list_get?_some_lt _ _ _ h
    simpa using this
  rw [list_get?_replicate b n i hlt] at h
  exact (Option.some.inj h).symm

theorem list_foldl_set_get? {α : Type _} (v : α) (l : List Nat) (ts : List α) (i : Nat)
    (h : ts.get? i = some v) :
    (l.foldl (fun t j => t.set j v) ts).get? i = some v := by
  induction l generalizing ts with
  | nil => exact h
  | cons j rest ih =>
    apply ih
    by_cases hj : j = i
    · subst hj
      exact list_get?_set_self _ _ _ (list_get?_some_lt _ _ _ h)
    · rw [list_get?_set_ne _ _ hj]
      exact h

theorem list_foldl_set_length {α : Type _} (v : α) (l : List Nat) (ts : List α) :
    (l.foldl (fun t j => t.set j v) ts).length = ts.length := by
  induction l generalizing ts with
  | nil => rfl
  | cons j rest ih => rw [List.foldl_cons, ih, List.length_set]

theorem list_foldl_set_get?_mem {α : Type _} (v : α) (l : List Nat) (ts : List α) (i : Nat)
    (hm : i ∈ l) (hlen : i < ts.length) :
    (l.foldl (fun t j => t.set j v) ts).get? i = some v := by
  induction l generalizing ts with
  | nil => simp at hm
  | cons j rest ih =>
    rw [List.foldl_cons]
    by_cases hj : j = i
    · subst hj
      exact list_foldl_set_get? v rest _ _ (list_get?_set_self _ _ _ hlen)
    · rcases List.mem_cons.mp hm with hji | hmem
      · exact absurd hji.symm hj
      · exact ih _ hmem (by rw [List.length_set]; exact hlen)

theorem list_get?_append_length {α : Type _} (l : List α) (a : α) :
    (l ++ [a]).get? l.length = some a := by
  induction l with
  | nil => rfl
  | cons x xs ih => exact ih

theorem list_get?_set_cases {α : Type _} (l : List α) (i j : Nat) (v a : α)
    (h : (l.set i v).get? j = some a) :
    (i = j ∧ a = v) ∨ (i ≠ j ∧ l.get? j = some a) := by
  by_cases hij : i = j
  · subst hij
    have hlt : i < l.length := by
      have := list_get?_some_lt _ _ _ h
      simpa [List.length_set] using this
    rw [list_get?_set_self _ _ _ hlt] at h
    exact Or.inl ⟨rfl, (Option.some.inj h).symm⟩
  · rw [list_get?_set_ne _ _ hij] at h
    exact Or.inr ⟨hij, h⟩

/-! ### `run` decomposition and `awaitStep` characterizations -/

theorem run_cons (s : Sys) (a : Act) (sched : List Act) :
    run s (a :: sched) = run (step s a) sched := rfl

theorem run_append (s : Sys) (sched1 sched2 : List Act) :
    run s (sched1 ++ sched2) = run (run s sched1) sched2 := by
  simp [run]

theorem step_first (s : Sys) (i : Nat) : step s (Act.first i) = firstStep s i := rfl

theorem step_resolve (s : Sys) (pid : Nat) (o : Except String (List Cred)) :
    step s (Act.resolve pid o) = resolveStep s pid o := rfl

theorem step_await (s : Sys) (i : Nat) : step s (Act.await i) = awaitStep s i := rfl

theorem awaitStep_get?_none (s : Sys) (i : Nat) (h : s.tasks.get? i = none) :
    awaitStep s i = s := by
  rw [awaitStep, h]

theorem awaitStep_start (s : Sys) (i : Nat) (cfg : TaskCfg)
    (h : s.tasks.get? i = some (cfg, .start)) : awaitStep s i = s := by
  rw [awaitStep, h]

theorem awaitStep_done_phase (s : Sys) (i : Nat) (cfg : TaskCfg)
    (r : Except String (List Cred)) (h : s.tasks.get? i = some (cfg, .done r)) :
    awaitStep s i = s := by
  rw [awaitStep, h]

theorem awaitStep_pending (s : Sys) (i : Nat) (cfg : TaskCfg) (p : Nat)
    (h : s.tasks.get? i = some (cfg, .awaiting p))
    (hres : lookupResolved s.resolved p = none) : awaitStep s i = s := by
  have h2 : s.tasks[i]? = some (cfg, TaskPhase.awaiting p) := by simpa using h
  simp [awaitStep, h2, hres]

theorem awaitStep_resolved (s : Sys) (i : Nat) (cfg : TaskCfg) (p : Nat)
    (o : Except String (List Cred)) (h : s.tasks.get? i = some (cfg, .awaiting p))
    (hres : lookupResolved s.resolved p = some o) :
    awaitStep s i = setPhase s i cfg (.done o) := by
  have h2 : s.tasks[i]? = some (cfg, TaskPhase.awaiting p) := by simpa using h
  simp [awaitStep, h2, hres]

/-- A run of task-pointwise steps: if, under `P`, stepping any index `j` just
sets that task to `w` and preserves `P`, then running the mapped schedule
folds the sets over the task list. -/
theorem run_tasks_foldl (P : Sys → Prop) (F : Nat → Act) (w : TaskCfg × TaskPhase)
    (hstep : ∀ s j, P s → step s (F j) = { s with tasks := s.tasks.set j w } ∧
      P { s with tasks := s.tasks.set j w })
    (l : List Nat) (s : Sys) (hP : P s) :
    run s (l.map F) = { s with tasks := l.foldl (fun ts j => ts.set j w) s.tasks } ∧
    P { s with tasks := l.foldl (fun ts j => ts.set j w) s.tasks } := by
  induction l generalizing s with
  | nil => exact ⟨rfl, hP⟩
  | cons j rest ih =>
    obtain ⟨h1, h2⟩ := hstep s j hP
    have hrec := ih { s with tasks := s.tasks.set j w } h2
    rw [List.map_cons, run_cons, h1]
    exact hrec

/-! ### Claim C1: request deduplication for overlapping calls -/

theorem dedup_hstep1 (cfg : TaskCfg) (hgood : goodCfg cfg = true) (s : Sys) (j : Nat)
    (hP : s.cache = [(cacheKey cfg, Entry.prom 0)] ∧
      ∀ j2 a, s.tasks.get? j2 = some a →
        a = (cfg, TaskPhase.start) ∨ a = (cfg, TaskPhase.awaiting 0)) :
    step s (Act.first j) = { s with tasks := s.tasks.set j (cfg, TaskPhase.awaiting 0) } ∧
    ({ s with tasks := s.tasks.set j (cfg, TaskPhase.awaiting 0) }.cache =
        [(cacheKey cfg, Entry.prom 0)] ∧
      ∀ j2 a, { s with tasks := s.tasks.set j (cfg, TaskPhase.awaiting 0) }.tasks.get? j2 =
          some a → a = (cfg, TaskPhase.start) ∨ a = (cfg, TaskPhase.awaiting 0)) := by
  obtain ⟨hc, hu⟩ := hP
  refine ⟨?_, hc, ?_⟩
  · rw [step_first]
    cases hj : s.tasks.get? j with
    | none => rw [firstStep_get?_none _ _ hj, list_set_of_get?_none _ _ _ hj]
    | some a =>
      rcases hu j a hj with ha | ha
      · subst ha
        have hm : mapGet s.cache (cacheKey cfg) = some (Entry.prom 0) := by
          rw [hc, mapGet_cons, if_pos (by simp)]
        rw [firstStep_start_prom s j cfg 0 hj hgood hm]
        rfl
      · subst ha
        rw [firstStep_awaiting s j cfg 0 hj, list_set_of_get? _ _ _ hj]
  · intro j2 a h
    rcases list_get?_set_cases _ _ _ _ _ h with ⟨_, rfl⟩ | ⟨_, hold⟩
    · exact Or.inr rfl
    · exact hu j2 a hold

theorem dedup_hstep2 (cfg : TaskCfg) (o : Except String (List Cred)) (s : Sys) (j : Nat)
    (hP : lookupResolved s.resolved 0 = some o ∧
      ∀ j2 a, s.tasks.get? j2 = some a →
        a = (cfg, TaskPhase.awaiting 0) ∨ a = (cfg, TaskPhase.done o)) :
    step s (Act.await j) = { s with tasks := s.tasks.set j (cfg, TaskPhase.done o) } ∧
    (lookupResolved { s with tasks := s.tasks.set j (cfg, TaskPhase.done o) }.resolved 0 =
        some o ∧
      ∀ j2 a, { s with tasks := s.tasks.set j (cfg, TaskPhase.done o) }.tasks.get? j2 =
          some a → a = (cfg, TaskPhase.awaiting 0) ∨ a = (cfg, TaskPhase.done o)) := by
  obtain ⟨hr, hu⟩ := hP
  refine ⟨?_, hr, ?_⟩
  · rw [step_await]
    cases hj : s.tasks.get? j with
    | none => rw [awaitStep_get?_none _ _ hj, list_set_of_get?_none _ _ _ hj]
    | some a =>
      rcases hu j a hj with ha | ha
      · subst ha
        rw [awaitStep_resolved s j cfg 0 o hj hr]
        rfl
      · subst ha
        rw [awaitStep_done_phase s j cfg o hj, list_set_of_get? _ _ _ hj]
  · intro j2 a h
    rcases list_get?_set_cases _ _ _ _ _ h with ⟨_, rfl⟩ | ⟨_, hold⟩
    · exact Or.inr rfl
    · exact hu j2 a hold

/-- C1: for overlapping calls to `fetchRequestedCredentials` with the same
`(clientId, host)` key — all calls start (and the in-flight promise is
published, inside the same atomic synchronous step) before the single network
request completes — exactly one request is issued, every caller ends with the
same result the request settled with, and on success the cache holds the
resolved list while on failure the entry is deleted and the very next call
issues a fresh request. -/
theorem fetchRequestedCredentials_dedup (cfg : TaskCfg) (n : Nat)
    (o : Except String (List Cred)) (ord1 ord2 : List Nat) (sFinal : Sys)
    (hgood : goodCfg cfg = true) (hn : 1 ≤ n)
    (h1 : ord1.Perm (List.range n)) (h2 : ord2.Perm (List.range n))
    (hfin : sFinal = run (initSys (List.replicate n cfg))
      (ord1.map Act.first ++ Act.resolve 0 o :: ord2.map Act.await)) :
    sFinal.requestsIssued = 1 ∧
    (∀ i, i < n → sFinal.tasks.get? i = some (cfg, TaskPhase.done o)) ∧
    (∀ d, o = .ok d → mapGet sFinal.cache (cacheKey cfg) = some (.data d)) ∧
    (∀ msg, o = .error msg → mapGet sFinal.cache (cacheKey cfg) = none ∧
      (firstStep { sFinal with tasks := sFinal.tasks ++ [(cfg, TaskPhase.start)] }
        n).requestsIssued = 2) := by
  subst hfin
  obtain ⟨j, t, hord1⟩ : ∃ j t, ord1 = j :: t := by
    cases hord : ord1 with
    | nil =>
      exfalso
      have hlen := h1.length_eq
      rw [hord] at hlen
      simp at hlen
      omega
    | cons j t => exact ⟨j, t, rfl⟩
  have hj_lt : j < n :=
    List.mem_range.mp (h1.mem_iff.mp (by rw [hord1]; exact List.mem_cons_self _ _))
  have e0 : initSys (List.replicate n cfg) =
      { cache := [], nextPid := 0, requestsIssued := 0, outstanding := [], resolved := [],
        tasks := List.replicate n (cfg, TaskPhase.start) } := by
    simp [initSys, List.map_replicate]
  have hs1 : firstStep
      { cache := [], nextPid := 0, requestsIssued := 0, outstanding := [], resolved := [],
        tasks := List.replicate n (cfg, TaskPhase.start) } j =
      { cache := [(cacheKey cfg, Entry.prom 0)], nextPid := 1, requestsIssued := 1,
        outstanding := [⟨0, cacheKey cfg⟩], resolved := [],
        tasks := (List.replicate n (cfg, TaskPhase.start)).set j (cfg, TaskPhase.awaiting 0) } := by
    have h := firstStep_start_create
      { cache := [], nextPid := 0, requestsIssued := 0, outstanding := [], resolved := [],
        tasks := List.replicate n (cfg, TaskPhase.start) } j cfg
      (list_get?_replicate (cfg, TaskPhase.start) n j hj_lt) hgood rfl
    exact h.trans rfl
  obtain ⟨hrunA, -⟩ := run_tasks_foldl
    (fun s => s.cache = [(cacheKey cfg, Entry.prom 0)] ∧
      ∀ j2 a, s.tasks.get? j2 = some a →
        a = (cfg, TaskPhase.start) ∨ a = (cfg, TaskPhase.awaiting 0))
    Act.first (cfg, TaskPhase.awaiting 0)
    (fun s j2 hP => dedup_hstep1 cfg hgood s j2 hP) t
    { cache := [(cacheKey cfg, Entry.prom 0)], nextPid := 1, requestsIssued := 1,
      outstanding := [⟨0, cacheKey cfg⟩], resolved := [],
      tasks := (List.replicate n (cfg, TaskPhase.start)).set j (cfg, TaskPhase.awaiting 0) }
    ⟨rfl, by
      intro j2 a h
      rcases list_get?_set_cases _ _ _ _ _ h with ⟨_, rfl⟩ | ⟨_, hold⟩
      · exact Or.inr rfl
      · exact Or.inl (list_get?_replicate_eq _ _ _ _ hold)⟩
  have hlenT : (t.foldl (fun ts j2 => ts.set j2 (cfg, TaskPhase.awaiting 0))
      ((List.replicate n (cfg, TaskPhase.start)).set j (cfg, TaskPhase.awaiting 0))).length
      = n := by
    rw [list_foldl_set_length, List.length_set, List.length_replicate]
  have hall2 : ∀ i, i < n →
      (t.foldl (fun ts j2 => ts.set j2 (cfg, TaskPhase.awaiting 0))
        ((List.replicate n (cfg, TaskPhase.start)).set j (cfg, TaskPhase.awaiting 0))).get? i
      = some (cfg, TaskPhase.awaiting 0) := by
    intro i hi
    have hmem : i ∈ ord1 := h1.mem_iff.mpr (List.mem_range.mpr hi)
    rw [hord1] at hmem
    rcases List.mem_cons.mp hmem with hij | hmem2
    · subst hij
      exact list_foldl_set_get? _ _ _ _
        (list_get?_set_self _ _ _ (by rw [List.length_replicate]; exact hj_lt))
    · exact list_foldl_set_get?_mem _ _ _ _ hmem2
        (by rw [List.length_set, List.length_replicate]; exact hi)
  have hmid : run (initSys (List.replicate n cfg)) (ord1.map Act.first) =
      { cache := [(cacheKey cfg, Entry.prom 0)], nextPid := 1, requestsIssued := 1,
        outstanding := [⟨0, cacheKey cfg⟩], resolved := [],
        tasks := t.foldl (fun ts j2 => ts.set j2 (cfg, TaskPhase.awaiting 0))
          ((List.replicate n (cfg, TaskPhase.start)).set j (cfg, TaskPhase.awaiting 0)) } := by
    rw [hord1, e0, List.map_cons, run_cons, step_first, hs1]
    exact hrunA.trans rfl
  rw [run_append, hmid, run_cons, step_resolve]
  cases o with
  | ok d =>
    have hres : resolveStep
        { cache := [(cacheKey cfg, Entry.prom 0)], nextPid := 1, requestsIssued := 1,
          outstanding := [⟨0, cacheKey cfg⟩], resolved := [],
          tasks := t.foldl (fun ts j2 => ts.set j2 (cfg, TaskPhase.awaiting 0))
            ((List.replicate n (cfg, TaskPhase.start)).set j (cfg, TaskPhase.awaiting 0)) }
        0 (.ok d) =
        { cache := [(cacheKey cfg, Entry.data d)], nextPid := 1, requestsIssued := 1,
          outstanding := [], resolved := [(0, Except.ok d)],
          tasks := t.foldl (fun ts j2 => ts.set j2 (cfg, TaskPhase.awaiting 0))
            ((List.replicate n (cfg, TaskPhase.start)).set j (cfg, TaskPhase.awaiting 0)) } := by
      have h := resolveStep_found_ok
        { cache := [(cacheKey cfg, Entry.prom 0)], nextPid := 1, requestsIssued := 1,
          outstanding := [⟨0, cacheKey cfg⟩], resolved := [],
          tasks := t.foldl (fun ts j2 => ts.set j2 (cfg, TaskPhase.awaiting 0))
            ((List.replicate n (cfg, TaskPhase.start)).set j (cfg, TaskPhase.awaiting 0)) }
        0 d ⟨0, cacheKey cfg⟩ rfl
      refine h.trans ?_
      have hms : mapSet [(cacheKey cfg, Entry.prom 0)] (cacheKey cfg) (Entry.data d) =
          [(cacheKey cfg, Entry.data d)] := by
        rw [mapSet_cons, if_pos (by simp)]
      show ({ cache := mapSet [(cacheKey cfg, Entry.prom 0)] (cacheKey cfg) (Entry.data d),
              nextPid := 1, requestsIssued := 1, outstanding := [],
              resolved := [(0, Except.ok d)],
              tasks := t.foldl (fun ts j2 => ts.set j2 (cfg, TaskPhase.awaiting 0))
                ((List.replicate n (cfg, TaskPhase.start)).set j
                  (cfg, TaskPhase.awaiting 0)) } : Sys)
        = _
      rw [hms]
    rw [hres]
    obtain ⟨hrunB, -⟩ := run_tasks_foldl
      (fun s => lookupResolved s.resolved 0 = some (Except.ok d) ∧
        ∀ j2 a, s.tasks.get? j2 = some a →
          a = (cfg, TaskPhase.awaiting 0) ∨ a = (cfg, TaskPhase.done (Except.ok d)))
      Act.await (cfg, TaskPhase.done (Except.ok d))
      (fun s j2 hP => dedup_hstep2 cfg (Except.ok d) s j2 hP) ord2
      { cache := [(cacheKey cfg, Entry.data d)], nextPid := 1, requestsIssued := 1,
        outstanding := [], resolved := [(0, Except.ok d)],
        tasks := t.foldl (fun ts j2 => ts.set j2 (cfg, TaskPhase.awaiting 0))
          ((List.replicate n (cfg, TaskPhase.start)).set j (cfg, TaskPhase.awaiting 0)) }
      ⟨rfl, by
        intro j2 a h
        have h2x : (t.foldl (fun ts j2 => ts.set j2 (cfg, TaskPhase.awaiting 0))
            ((List.replicate n (cfg, TaskPhase.start)).set j
              (cfg, TaskPhase.awaiting 0))).get? j2 = some a := h
        have hlt : j2 < n := by rw [← hlenT]; exact list_get?_some_lt _ _ _ h2x
        rw [hall2 j2 hlt] at h2x
        exact Or.inl (Option.some.inj h2x).symm⟩
    rw [hrunB]
    refine ⟨rfl, ?_, ?_, ?_⟩
    · intro i hi
      have hmem : i ∈ ord2 := h2.mem_iff.mpr (List.mem_range.mpr hi)
      show (ord2.foldl (fun ts j2 => ts.set j2 (cfg, TaskPhase.done (Except.ok d)))
        (t.foldl (fun ts j2 => ts.set j2 (cfg, TaskPhase.awaiting 0))
          ((List.replicate n (cfg, TaskPhase.start)).set j
            (cfg, TaskPhase.awaiting 0)))).get? i = some (cfg, TaskPhase.done (Except.ok d))
      exact list_foldl_set_get?_mem _ _ _ _ hmem (by rw [hlenT]; exact hi)
    · intro d2 hd
      cases hd
      show mapGet [(cacheKey cfg, Entry.data d)] (cacheKey cfg) = some (Entry.data d)
      rw [mapGet_cons, if_pos (by simp)]
    · intro msg hmsg
      cases hmsg
  | error msg =>
    have hres : resolveStep
        { cache := [(cacheKey cfg, Entry.prom 0)], nextPid := 1, requestsIssued := 1,
          outstanding := [⟨0, cacheKey cfg⟩], resolved := [],
          tasks := t.foldl (fun ts j2 => ts.set j2 (cfg, TaskPhase.awaiting 0))
            ((List.replicate n (cfg, TaskPhase.start)).set j (cfg, TaskPhase.awaiting 0)) }
        0 (.error msg) =
        { cache := [], nextPid := 1, requestsIssued := 1,
          outstanding := [], resolved := [(0, Except.error msg)],
          tasks := t.foldl (fun ts j2 => ts.set j2 (cfg, TaskPhase.awaiting 0))
            ((List.replicate n (cfg, TaskPhase.start)).set j (cfg, TaskPhase.awaiting 0)) } := by
      have h := resolveStep_found_err
        { cache := [(cacheKey cfg, Entry.prom 0)], nextPid := 1, requestsIssued := 1,
          outstanding := [⟨0, cacheKey cfg⟩], resolved := [],
          tasks := t.foldl (fun ts j2 => ts.set j2 (cfg, TaskPhase.awaiting 0))
            ((List.replicate n (cfg, TaskPhase.start)).set j (cfg, TaskPhase.awaiting 0)) }
        0 msg ⟨0, cacheKey cfg⟩ rfl
      refine h.trans ?_
      have hmd : mapDelete [(cacheKey cfg, Entry.prom 0)] (cacheKey cfg) = ([] : Cache) := by
        rw [mapDelete_cons, if_pos (by simp)]
        rfl
      show ({ cache := mapDelete [(cacheKey cfg, Entry.prom 0)] (cacheKey cfg),
              nextPid := 1, requestsIssued := 1, outstanding := [],
              resolved := [(0, Except.error msg)],
              tasks := t.foldl (fun ts j2 => ts.set j2 (cfg, TaskPhase.awaiting 0))
                ((List.replicate n (cfg, TaskPhase.start)).set j
                  (cfg, TaskPhase.awaiting 0)) } : Sys)
        = _
      rw [hmd]
    rw [hres]
    obtain ⟨hrunB, -⟩ := run_tasks_foldl
      (fun s => lookupResolved s.resolved 0 = some (Except.error msg) ∧
        ∀ j2 a, s.tasks.get? j2 = some a →
          a = (cfg, TaskPhase.awaiting 0) ∨ a = (cfg, TaskPhase.done (Except.error msg)))
      Act.await (cfg, TaskPhase.done (Except.error msg))
      (fun s j2 hP => dedup_hstep2 cfg (Except.error msg) s j2 hP) ord2
      { cache := [], nextPid := 1, requestsIssued := 1,
        outstanding := [], resolved := [(0, Except.error msg)],
        tasks := t.foldl (fun ts j2 => ts.set j2 (cfg, TaskPhase.awaiting 0))
          ((List.replicate n (cfg, TaskPhase.start)).set j (cfg, TaskPhase.awaiting 0)) }
      ⟨rfl, by
        intro j2 a h
        have h2x : (t.foldl (fun ts j2 => ts.set j2 (cfg, TaskPhase.awaiting 0))
            ((List.replicate n (cfg, TaskPhase.start)).set j
              (cfg, TaskPhase.awaiting 0))).get? j2 = some a := h
        have hlt : j2 < n := by rw [← hlenT]; exact list_get?_some_lt _ _ _ h2x
        rw [hall2 j2 hlt] at h2x
        exact Or.inl (Option.some.inj h2x).symm⟩
    rw [hrunB]
    have hlenT2 : (ord2.foldl (fun ts j2 => ts.set j2 (cfg, TaskPhase.done (Except.error msg)))
        (t.foldl (fun ts j2 => ts.set j2 (cfg, TaskPhase.awaiting 0))
          ((List.replicate n (cfg, TaskPhase.start)).set j
            (cfg, TaskPhase.awaiting 0)))).length = n := by
      rw [list_foldl_set_length, hlenT]
    refine ⟨rfl, ?_, ?_, ?_⟩
    · intro i hi
      have hmem : i ∈ ord2 := h2.mem_iff.mpr (List.mem_range.mpr hi)
      show (ord2.foldl (fun ts j2 => ts.set j2 (cfg, TaskPhase.done (Except.error msg)))
        (t.foldl (fun ts j2 => ts.set j2 (cfg, TaskPhase.awaiting 0))
          ((List.replicate n (cfg, TaskPhase.start)).set j
            (cfg, TaskPhase.awaiting 0)))).get? i = some (cfg, TaskPhase.done (Except.error msg))
      exact list_foldl_set_get?_mem _ _ _ _ hmem (by rw [hlenT]; exact hi)
    · intro d2 hd
      cases hd
    · intro msg2 hmsg
      cases hmsg
      refine ⟨rfl, ?_⟩
      have hgetn := list_get?_append_length
        (ord2.foldl (fun ts j2 => ts.set j2 (cfg, TaskPhase.done (Except.error msg)))
          (t.foldl (fun ts j2 => ts.set j2 (cfg, TaskPhase.awaiting 0))
            ((List.replicate n (cfg, TaskPhase.start)).set j (cfg, TaskPhase.awaiting 0))))
        (cfg, TaskPhase.start)
      rw [hlenT2] at hgetn
      have hcreate := firstStep_start_create
        { cache := [], nextPid := 1, requestsIssued := 1, outstanding := [],
          resolved := [(0, Except.error msg)],
          tasks := (ord2.foldl (fun ts j2 => ts.set j2 (cfg, TaskPhase.done (Except.error msg)))
            (t.foldl (fun ts j2 => ts.set j2 (cfg, TaskPhase.awaiting 0))
              ((List.replicate n (cfg, TaskPhase.start)).set j (cfg, TaskPhase.awaiting 0))))
            ++ [(cfg, TaskPhase.start)] } n cfg hgetn hgood rfl
      show (firstStep
        { cache := [], nextPid := 1, requestsIssued := 1, outstanding := [],
          resolved := [(0, Except.error msg)],
          tasks := (ord2.foldl (fun ts j2 => ts.set j2 (cfg, TaskPhase.done (Except.error msg)))
            (t.foldl (fun ts j2 => ts.set j2 (cfg, TaskPhase.awaiting 0))
              ((List.replicate n (cfg, TaskPhase.start)).set j (cfg, TaskPhase.awaiting 0))))
            ++ [(cfg, TaskPhase.start)] } n).requestsIssued = 2
      rw [hcreate]

/-- Witness for `fetchRequestedCredentials_dedup`: two overlapping calls,
one successful request, both callers done with the same list. -/
theorem fetchRequestedCredentials_dedup_witness :
    (run (initSys (List.replicate 2 (⟨some "key", "abc", "h"⟩ : TaskCfg)))
      (([1, 0] : List Nat).map Act.first ++
        Act.resolve 0 (.ok ["credA"]) :: ([0, 1] : List Nat).map Act.await)).tasks.get? 0 =
      some (⟨some "key", "abc", "h"⟩, TaskPhase.done (.ok ["credA"])) :=
  (fetchRequestedCredentials_dedup ⟨some "key", "abc", "h"⟩ 2 (.ok ["credA"]) [1, 0] [0, 1]
    _ (by decide) (by decide) (by decide) (by decide) rfl).2.1 0 (by decide)

end WCB
